import Mathlib

/-!
Verification development for the hackathon-starter agent repository.

The embedding models, faithfully to the TypeScript source:
* the content-extraction helpers (agent/src/agent.ts parseContent and the
  page component's getUserMessageText),
* the LineReader class of agent/src/agent.ts (line buffering over stdin),
* the control flow of agent/src/agent.ts main() (protocol frames, flush,
  completion callback),
* the polling/reconciliation loop of the Home page component (setInterval
  tick, busy flag, pending-message retirement, refresh-signal gating and
  React effect re-evaluation on dependency change).
-/

namespace HackathonStarter

/-- JavaScript truthiness of an optional string: an absent value and the
empty string are falsy, every other string is truthy. -/
def strTruthy : Option String → Bool
  | none => false
  | some s => s ≠ ""

/-- JavaScript `a || b` on optional strings: return the first operand when
it is truthy, otherwise the second. -/
def jsOrStr (a b : Option String) : Option String :=
  if strTruthy a then a else b

/-- JavaScript `a || undefined`: normalise a falsy value to absence. -/
def normTruthy (a : Option String) : Option String :=
  if strTruthy a then a else none

/-- One content segment `{ type: string; text?: string }` as it appears in
session_message content lists and in confirmed-message content blocks. -/
structure Seg where
  type : String
  text : Option String
deriving DecidableEq, Repr

/-- The filter used by both extraction functions:
`b.type === "text" && b.text` (text present and non-empty). -/
def segKeep (b : Seg) : Bool :=
  b.type == "text" && strTruthy b.text

/-- The shared filter-map-join over a content list:
`content.filter(b => b.type === "text" && b.text).map(b => b.text!).join("\n")`. -/
def joinSegs (l : List Seg) : String :=
  String.intercalate "\n" ((l.filter segKeep).map (fun b => b.text.getD ""))

/-- agent.ts parseContent: return msg.text when truthy, else fall back to
the content list when present, else the empty string. -/
def parseContent (text : Option String) (content : Option (List Seg)) : String :=
  if strTruthy text then text.getD ""
  else
    match content with
    | some l => joinSegs l
    | none => ""

/-- A confirmed message's content: either a plain string or a block list. -/
inductive JsContent
  | str (s : String)
  | arr (l : List Seg)
deriving DecidableEq, Repr

/-- The page component's getUserMessageText: a string content is returned
as is, an array is filtered to non-empty text blocks and joined with
newlines. -/
def getUserMessageText : JsContent → String
  | .str s => s
  | .arr l => joinSegs l

/-! ## LineReader (agent.ts class LineReader)

The class is driven by three kinds of events: a "line" event from the
readline interface, the "close" event, and a readLine() call.  Each
readLine call is a reader; readers are numbered in call order.  The model
records every delivered result together with the reader's number and the
closed flag and buffered-line count at the moment of delivery. -/

/-- An event driving the LineReader: a line arrival, stream closure, or a
readLine() call. -/
inductive LEvent
  | arrive (s : String)
  | close
  | read
deriving DecidableEq, Repr

/-- One delivered readLine result: the reader's call index, the value
(none is the end-of-stream marker), and the closed flag and buffered-line
count observed at the moment of delivery. -/
structure Emit where
  idx : Nat
  val : Option String
  closedAt : Bool
  bufAt : Nat
deriving DecidableEq, Repr

/-- LineReader state: the buffered-lines queue, the FIFO queue of waiting
readers (by call index), the closed flag, the next reader index, and the
trace of delivered results. -/
structure LState where
  lines : List String
  waiters : List Nat
  closed : Bool
  nextIdx : Nat
  out : List Emit
deriving DecidableEq, Repr

/-- The initial LineReader state. -/
def linit : LState :=
  { lines := [], waiters := [], closed := false, nextIdx := 0, out := [] }

/-- One step of the LineReader, mirroring the three handlers of the class:
on a line, serve the oldest waiting reader if any, else buffer; on close,
set the flag and resolve every waiting reader with the end marker; on
readLine, pop a buffered line if any, else return the end marker when
closed, else enqueue the reader. -/
def lstep (s : LState) : LEvent → LState
  | .arrive str =>
    match s.waiters with
    | w :: rest =>
      { s with waiters := rest
               out := s.out ++ [⟨w, some str, s.closed, s.lines.length⟩] }
    | [] => { s with lines := s.lines ++ [str] }
  | .close =>
    { s with closed := true
             waiters := []
             out := s.out ++ s.waiters.map (fun w => ⟨w, none, true, s.lines.length⟩) }
  | .read =>
    match s.lines with
    | l :: rest =>
      { s with lines := rest
               nextIdx := s.nextIdx + 1
               out := s.out ++ [⟨s.nextIdx, some l, s.closed, s.lines.length⟩] }
    | [] =>
      if s.closed then
        { s with nextIdx := s.nextIdx + 1
                 out := s.out ++ [⟨s.nextIdx, none, true, 0⟩] }
      else
        { s with nextIdx := s.nextIdx + 1
                 waiters := s.waiters ++ [s.nextIdx] }

/-- Run the LineReader over a list of events from the initial state. -/
def lrun (evs : List LEvent) : LState :=
  evs.foldl lstep linit

/-- The lines that arrived, in arrival order. -/
def arrivals (evs : List LEvent) : List String :=
  evs.filterMap (fun e => match e with | .arrive s => some s | _ => none)

/-- The non-null results delivered to readers, in delivery order. -/
def delivered (s : LState) : List String :=
  s.out.filterMap (·.val)

/-- Every end-of-stream result was delivered while the stream was closed
and the line buffer was empty. -/
def nullsOk (out : List Emit) : Bool :=
  out.all (fun e => e.val.isSome || (e.closedAt && e.bufAt == 0))

/-- The inductive invariant of the LineReader state: a non-empty buffer
implies no waiting readers, a closed stream has no waiting readers, the
waiting readers are exactly the next consecutive reader indices, the next
index counts all readers so far, and delivery order agrees with call
order while end markers respect closure. -/
def LInv (s : LState) : Prop :=
  (s.lines ≠ [] → s.waiters = []) ∧
  (s.closed = true → s.waiters = []) ∧
  s.waiters = List.range' s.out.length s.waiters.length ∧
  s.nextIdx = s.out.length + s.waiters.length ∧
  s.out.map (·.idx) = List.range s.out.length ∧
  nullsOk s.out = true

theorem nullsOk_append (a b : List Emit) :
    nullsOk (a ++ b) = (nullsOk a && nullsOk b) := by
  simp [nullsOk, List.all_append]

theorem linit_inv : LInv linit := by
  refine ⟨fun h => rfl, fun _ => rfl, rfl, rfl, rfl, rfl⟩

theorem lstep_inv (s : LState) (e : LEvent) (h : LInv s) : LInv (lstep s e) := by
  obtain ⟨lines, waiters, closed, nextIdx, out⟩ := s
  obtain ⟨h1, h2, h3, h4, h5, h6⟩ := h
  dsimp only at h1 h2 h3 h4 h5 h6
  cases e with
  | arrive str =>
    cases waiters with
    | nil =>
      unfold lstep LInv
      dsimp only
      exact ⟨fun _ => rfl, fun _ => rfl, h3, by simpa using h4, h5, h6⟩
    | cons w rest =>
      have hlines : lines = [] := by
        by_cases hl : lines = []
        · exact hl
        · exact absurd (h1 hl) (List.cons_ne_nil w rest)
      have h3' : w :: rest = List.range' out.length (rest.length + 1) := by
        simpa using h3
      rw [List.range'_succ] at h3'
      have hw : w = out.length := (List.cons.injEq _ _ _ _ ▸ h3').1
      have hrest : rest = List.range' (out.length + 1) rest.length :=
        (List.cons.injEq _ _ _ _ ▸ h3').2
      unfold lstep LInv
      dsimp only
      refine ⟨?_, ?_, ?_, ?_, ?_, ?_⟩
      · intro hc; exact absurd (h1 hc) (List.cons_ne_nil w rest)
      · intro hc; exact absurd (h2 hc) (List.cons_ne_nil w rest)
      · simpa using hrest
      · simp only [List.length_append, List.length_cons, List.length_nil] at h4 ⊢
        omega
      · rw [List.map_append, h5]
        simp [hw, List.range_succ]
      · rw [nullsOk_append, h6]
        simp [nullsOk]
  | close =>
    unfold lstep LInv
    dsimp only
    refine ⟨fun _ => rfl, fun _ => rfl, by simp, ?_, ?_, ?_⟩
    · simp only [List.length_append, List.length_map, List.length_nil]
      omega
    · have hmap : ∀ l : List Nat, List.map (·.idx) (l.map (fun w =>
          (⟨w, none, true, lines.length⟩ : Emit))) = l := by
        intro l
        induction l with
        | nil => rfl
        | cons a l ih => simp only [List.map_cons]; rw [ih]
      rw [List.map_append, h5, hmap waiters, List.length_append, List.length_map,
        List.range_add, ← List.range'_eq_map_range, ← h3]
    · rw [nullsOk_append, h6]
      cases waiters with
      | nil => rfl
      | cons w rest =>
        have hlines : lines = [] := by
          by_cases hl : lines = []
          · exact hl
          · exact absurd (h1 hl) (List.cons_ne_nil w rest)
        subst hlines
        simp [nullsOk]
  | read =>
    cases lines with
    | cons l rest =>
      have hw : waiters = [] := h1 (List.cons_ne_nil l rest)
      subst hw
      simp only [List.length_nil, Nat.add_zero] at h4
      unfold lstep LInv
      dsimp only
      refine ⟨fun _ => rfl, fun _ => rfl, by simp, ?_, ?_, ?_⟩
      · simp only [List.length_append, List.length_cons, List.length_nil]
        omega
      · rw [List.map_append, h5]
        simp [h4, List.range_succ]
      · rw [nullsOk_append, h6]
        simp [nullsOk]
    | nil =>
      cases closed with
      | true =>
        have hw : waiters = [] := h2 rfl
        subst hw
        simp only [List.length_nil, Nat.add_zero] at h4
        unfold lstep
        rw [if_pos rfl]
        unfold LInv
        dsimp only
        refine ⟨fun _ => rfl, fun _ => rfl, by simp, ?_, ?_, ?_⟩
        · simp only [List.length_append, List.length_cons, List.length_nil]
          omega
        · rw [List.map_append, h5]
          simp [h4, List.range_succ]
        · rw [nullsOk_append, h6]
          rfl
      | false =>
        unfold lstep
        rw [if_neg (by decide : ¬ (false = true))]
        unfold LInv
        dsimp only
        refine ⟨fun hc => absurd rfl hc, fun hc => by simp at hc, ?_, ?_, h5, h6⟩
        · simp only [List.length_append, List.length_cons, List.length_nil, Nat.zero_add]
          rw [List.range'_1_concat, ← h3, h4]
        · simp only [List.length_append, List.length_cons, List.length_nil]
          omega

theorem lstep_conserve (s : LState) (e : LEvent) (h : LInv s) :
    delivered (lstep s e) ++ (lstep s e).lines
      = (delivered s ++ s.lines) ++ arrivals [e] := by
  obtain ⟨lines, waiters, closed, nextIdx, out⟩ := s
  obtain ⟨h1, h2, h3, h4, h5, h6⟩ := h
  dsimp only at h1 h2 h3 h4 h5 h6
  cases e with
  | arrive str =>
    cases waiters with
    | nil =>
      unfold lstep
      simp [delivered, arrivals]
    | cons w rest =>
      have hlines : lines = [] := by
        by_cases hl : lines = []
        · exact hl
        · exact absurd (h1 hl) (List.cons_ne_nil w rest)
      subst hlines
      unfold lstep
      simp [delivered, arrivals, List.filterMap_append]
  | close =>
    have hmap : ∀ l : List Nat, List.filterMap (·.val) (l.map (fun w =>
        (⟨w, none, true, lines.length⟩ : Emit))) = [] := by
      intro l
      induction l with
      | nil => rfl
      | cons a l ih => simp [ih]
    unfold lstep
    simp [delivered, arrivals, List.filterMap_append, hmap]
  | read =>
    cases lines with
    | cons l rest =>
      unfold lstep
      simp [delivered, arrivals, List.filterMap_append]
    | nil =>
      cases closed with
      | true =>
        unfold lstep
        rw [if_pos rfl]
        simp [delivered, arrivals, List.filterMap_append]
      | false =>
        unfold lstep
        rw [if_neg (by decide : ¬ (false = true))]
        simp [delivered, arrivals]

theorem lrun_go (evs : List LEvent) : ∀ s : LState, LInv s →
    LInv (evs.foldl lstep s)
    ∧ delivered (evs.foldl lstep s) ++ (evs.foldl lstep s).lines
        = (delivered s ++ s.lines) ++ arrivals evs := by
  induction evs with
  | nil =>
    intro s hs
    exact ⟨hs, by simp [arrivals]⟩
  | cons e evs ih =>
    intro s hs
    have hstep := lstep_inv s e hs
    obtain ⟨hinv, hcons⟩ := ih (lstep s e) hstep
    refine ⟨hinv, ?_⟩
    rw [List.foldl_cons]
    rw [hcons, lstep_conserve s e hs]
    have : arrivals (e :: evs) = arrivals [e] ++ arrivals evs := by
      cases e <;> simp [arrivals]
    rw [this, List.append_assoc]

/-- C1: for every interleaving of line arrivals, stream closure and
readLine calls, the LineReader delivers results to readers in call order
(the recorded reader indices are exactly 0, 1, 2, ... in delivery order),
the non-null results followed by the still-buffered lines are exactly the
arrived lines in arrival order (so lines are delivered FIFO, none lost,
none duplicated), and every end-of-stream (null) result is delivered only
once the stream has closed and no buffered lines remain. -/
theorem C1_lineReader_fifo (evs : List LEvent) :
    delivered (lrun evs) ++ (lrun evs).lines = arrivals evs
    ∧ (lrun evs).out.map (·.idx) = List.range (lrun evs).out.length
    ∧ nullsOk (lrun evs).out = true := by
  obtain ⟨hinv, hcons⟩ := lrun_go evs linit linit_inv
  obtain ⟨_, _, _, _, h5, h6⟩ := hinv
  refine ⟨?_, h5, h6⟩
  simpa [lrun, delivered, linit] using hcons

/-! ## The agent process main() (agent.ts)

The two stdin reads, the query event loop, the degenerate-completion
branch, the exception handler and the finally block are modelled as a
pure function from the two input lines, the RESUME_SESSION_ID
environment value, the outcome of the query() event sequence and the
success of the filesystem sync to the ordered list of observable
effects: emitted protocol frames, volume flushes and completion
callbacks. -/

/-- Result metrics carried by a terminal result event and echoed in the
session_complete frame; total_cost_usd may be null (none). -/
structure Metrics where
  duration_ms : Int
  duration_api_ms : Int
  total_cost_usd : Option Rat
  num_turns : Int
deriving DecidableEq, Repr

/-- The metrics synthesized when the event sequence ends without a
terminal result: all fields zero. -/
def zeroMetrics : Metrics :=
  { duration_ms := 0, duration_api_ms := 0, total_cost_usd := some 0, num_turns := 0 }

/-- A parsed inbound stdin message, by its type tag. -/
inductive Msg
  | processStart (session_id : Option String)
  | sessionMessage (text : Option String) (content : Option (List Seg))
  | otherType
deriving DecidableEq

/-- One readLine outcome as main() sees it: end of stream, a line that is
not valid JSON, or a parsed message. -/
inductive Line
  | eof
  | malformed
  | ok (m : Msg)
deriving DecidableEq

/-- One event of the query() asynchronous sequence: a system init event
carrying the session id, a terminal result event, or any other event. -/
inductive QEvent
  | init (session_id : String)
  | result (m : Metrics)
  | other
deriving DecidableEq

/-- The outcome of iterating the query() sequence: either it finishes
after yielding the listed events, or it throws after yielding a prefix. -/
inductive ExecOutcome
  | finished (evs : List QEvent)
  | threw (evs : List QEvent) (errMsg : String)
deriving DecidableEq

/-- An outbound protocol frame. -/
inductive Frame
  | process_error (message : String)
  | process_ready (session_id : String)
  | session_started (session_id : String)
  | session_complete (session_id : Option String) (result : Metrics)
  | process_stopped
deriving DecidableEq, Repr

/-- A side effect other than a frame: a volume flush (recording whether
the sync succeeded; the failure is caught inside flushVolume) or a
completion callback with status, session id and error message. -/
inductive Act
  | flush (ok : Bool)
  | callback (status : String) (sessionId : Option String) (errorMessage : Option String)
deriving DecidableEq, Repr

/-- One observable effect of main(): a frame or an action. -/
inductive Ev
  | frame (f : Frame)
  | act (a : Act)
deriving DecidableEq, Repr

/-- The body of the `for await` loop over query() events: init events
update the current session id and emit session_started, result events
set gotResult, emit session_complete with the current session id and the
event's metrics, flush the volume and call the callback with
status completed.  Returns the final session id, the final gotResult
flag and the effects in order. -/
def runEvents (sid : Option String) (got : Bool) (fo : Bool) :
    List QEvent → Option String × Bool × List Ev
  | [] => (sid, got, [])
  | .init s :: rest =>
    let r := runEvents (some s) got fo rest
    (r.1, r.2.1, .frame (.session_started s) :: r.2.2)
  | .result m :: rest =>
    let r := runEvents sid true fo rest
    (r.1, r.2.1,
      .frame (.session_complete sid m) :: .act (.flush fo)
        :: .act (.callback "completed" sid none) :: r.2.2)
  | .other :: rest => runEvents sid got fo rest

/-- The try/catch part of main() after the LineReader is set up: read
process_start, emit process_ready, read session_message, extract the
prompt, run the query loop, handle the degenerate no-result completion
and the exception handler. -/
def mainBody (line1 line2 : Line) (resumeEnv : Option String)
    (exec : ExecOutcome) (fo : Bool) : List Ev :=
  (match line1 with
   | .eof => [.frame (.process_error "No input received")]
   | .malformed => [.frame (.process_error "Invalid JSON for process_start")]
   | .ok (.sessionMessage _ _) => [.frame (.process_error "Expected process_start")]
   | .ok .otherType => [.frame (.process_error "Expected process_start")]
   | .ok (.processStart sid) =>
     let resume := normTruthy (jsOrStr sid (normTruthy resumeEnv))
     .frame (.process_ready (resume.getD "pending")) ::
     (match line2 with
      | .eof => [.frame (.process_error "No session_message received")]
      | .malformed => [.frame (.process_error "Invalid JSON for session_message")]
      | .ok (.processStart _) => [.frame (.process_error "Expected session_message")]
      | .ok .otherType => [.frame (.process_error "Expected session_message")]
      | .ok (.sessionMessage text content) =>
        if parseContent text content = "" then
          [.frame (.process_error "Empty prompt")]
        else
          match exec with
          | .finished evs =>
            let r := runEvents resume false fo evs
            r.2.2 ++
              (if r.2.1 then [] else
                [.frame (.session_complete r.1 zeroMetrics), .act (.flush fo),
                 .act (.callback "completed" r.1 none)])
          | .threw evs err =>
            let r := runEvents resume false fo evs
            r.2.2 ++
              [.frame (.process_error err), .act (.flush fo),
               .act (.callback "error" none (some err))]))

/-- The whole of main(): the try/catch body followed by the finally
block, which closes the readline interface and always emits
process_stopped as the very last frame. -/
def runMain (line1 line2 : Line) (resumeEnv : Option String)
    (exec : ExecOutcome) (fo : Bool) : List Ev :=
  mainBody line1 line2 resumeEnv exec fo ++ [.frame .process_stopped]

/-- Is this effect the process_stopped frame? -/
def isStoppedEv : Ev → Bool
  | .frame .process_stopped => true
  | _ => false

/-- Is this effect a session_complete frame? -/
def isCompleteEv : Ev → Bool
  | .frame (.session_complete _ _) => true
  | _ => false

/-- A session_complete frame carries the all-zero metrics (other effects
pass vacuously). -/
def completeZeroOk : Ev → Bool
  | .frame (.session_complete _ m) => m == zeroMetrics
  | _ => true

/-- Is this effect a completion callback (of any status)? -/
def isCallbackEv : Ev → Bool
  | .act (.callback _ _ _) => true
  | _ => false

/-- Is this effect a completion callback with status completed? -/
def isCompletedCallback : Ev → Bool
  | .act (.callback st _ _) => st == "completed"
  | _ => false

/-- Does the query event list contain a terminal result event? -/
def hasResultEv (evs : List QEvent) : Bool :=
  evs.any (fun e => match e with | .result _ => true | _ => false)

/-- Every callback effect in the list is immediately preceded by a flush
effect; the first argument is the effect just before the list, if any. -/
def cbOk : Option Ev → List Ev → Bool
  | _, [] => true
  | prev, e :: rest =>
    (match e with
     | .act (.callback _ _ _) =>
       (match prev with
        | some (.act (.flush _)) => true
        | _ => false)
     | _ => true) && cbOk (some e) rest

/-- Erase the recorded sync success flag from flush effects, leaving
everything else unchanged. -/
def stripFlush : List Ev → List Ev :=
  List.map (fun e => match e with | .act (.flush _) => .act (.flush true) | e => e)

theorem runEvents_no_stopped (fo : Bool) (evs : List QEvent) :
    ∀ sid got, (runEvents sid got fo evs).2.2.countP isStoppedEv = 0 := by
  induction evs with
  | nil => intro sid got; rfl
  | cons e rest ih =>
    intro sid got
    cases e with
    | init s => simp [runEvents, List.countP_cons, isStoppedEv, ih]
    | result m => simp [runEvents, List.countP_cons, isStoppedEv, ih]
    | other => simp [runEvents, ih]

theorem mainBody_no_stopped (line1 line2 : Line) (env : Option String)
    (exec : ExecOutcome) (fo : Bool) :
    (mainBody line1 line2 env exec fo).countP isStoppedEv = 0 := by
  cases line1 with
  | eof => rfl
  | malformed => rfl
  | ok m1 =>
    cases m1 with
    | sessionMessage t c => rfl
    | otherType => rfl
    | processStart sid =>
      cases line2 with
      | eof => simp [mainBody, List.countP_cons, isStoppedEv]
      | malformed => simp [mainBody, List.countP_cons, isStoppedEv]
      | ok m2 =>
        cases m2 with
        | processStart s => simp [mainBody, List.countP_cons, isStoppedEv]
        | otherType => simp [mainBody, List.countP_cons, isStoppedEv]
        | sessionMessage t c =>
          by_cases hp : parseContent t c = ""
          · simp [mainBody, hp, List.countP_cons, isStoppedEv]
          · cases exec with
            | finished evs =>
              by_cases hg : (runEvents (normTruthy (jsOrStr sid (normTruthy env)))
                  false fo evs).2.1
              · simp [mainBody, hp, hg, List.countP_cons, List.countP_append,
                  isStoppedEv, runEvents_no_stopped]
              · simp [mainBody, hp, hg, List.countP_cons, List.countP_append,
                  isStoppedEv, runEvents_no_stopped]
            | threw evs err =>
              simp [mainBody, hp, List.countP_cons, List.countP_append,
                isStoppedEv, runEvents_no_stopped]

theorem getLast?_append_singleton {α : Type} (l : List α) (a : α) :
    (l ++ [a]).getLast? = some a := by
  induction l with
  | nil => rfl
  | cons b l ih =>
    cases l with
    | nil => rfl
    | cons c l' =>
      simp only [List.cons_append] at ih ⊢
      rw [List.getLast?_cons_cons]
      exact ih

/-- C8: whatever branch main() takes (protocol error at start, malformed
or missing session_message, empty prompt, execution exception, or normal
completion), the run emits process_stopped exactly once, and it is the
very last emitted effect. -/
theorem C8_stopped_exactly_once_last (line1 line2 : Line) (env : Option String)
    (exec : ExecOutcome) (fo : Bool) :
    (runMain line1 line2 env exec fo).countP isStoppedEv = 1
    ∧ (runMain line1 line2 env exec fo).getLast?
        = some (.frame .process_stopped) := by
  constructor
  · rw [runMain, List.countP_append, mainBody_no_stopped]
    rfl
  · rw [runMain]
    exact getLast?_append_singleton _ _

theorem runEvents_no_result (fo : Bool) (evs : List QEvent)
    (hr : hasResultEv evs = false) :
    ∀ sid got, (runEvents sid got fo evs).2.1 = got
      ∧ (runEvents sid got fo evs).2.2.countP isCompleteEv = 0
      ∧ (runEvents sid got fo evs).2.2.countP isCallbackEv = 0 := by
  induction evs with
  | nil => intro sid got; exact ⟨rfl, rfl, rfl⟩
  | cons e rest ih =>
    intro sid got
    cases e with
    | init s =>
      have hr' : hasResultEv rest = false := by
        simpa [hasResultEv] using hr
      obtain ⟨hg, hc, hb⟩ := ih hr' (some s) got
      refine ⟨hg, ?_, ?_⟩
      · simp [runEvents, List.countP_cons, isCompleteEv, hc]
      · simp [runEvents, List.countP_cons, isCallbackEv, hb]
    | result m =>
      exfalso
      simp [hasResultEv] at hr
    | other =>
      have hr' : hasResultEv rest = false := by
        simpa [hasResultEv] using hr
      exact ih hr' sid got

/-- C2: if the query event sequence finishes without ever yielding a
terminal result event, the run emits exactly one session_complete frame,
every session_complete frame it emits carries the all-zero metrics
(duration_ms, duration_api_ms, total_cost_usd, num_turns all 0), and the
completion callback is still invoked with status completed. -/
theorem C2_degenerate_completion (sid text : Option String)
    (content : Option (List Seg)) (env : Option String) (evs : List QEvent)
    (fo : Bool) (hp : parseContent text content ≠ "")
    (hr : hasResultEv evs = false) :
    (runMain (.ok (.processStart sid)) (.ok (.sessionMessage text content))
        env (.finished evs) fo).countP isCompleteEv = 1
    ∧ (runMain (.ok (.processStart sid)) (.ok (.sessionMessage text content))
        env (.finished evs) fo).all completeZeroOk = true
    ∧ 0 < (runMain (.ok (.processStart sid)) (.ok (.sessionMessage text content))
        env (.finished evs) fo).countP isCompletedCallback := by
  obtain ⟨hg, hc, hb⟩ := runEvents_no_result fo evs hr
      (normTruthy (jsOrStr sid (normTruthy env))) false
  have hnone : ∀ e ∈ (runEvents (normTruthy (jsOrStr sid (normTruthy env)))
      false fo evs).2.2, isCompleteEv e = false := by
    intro e he
    have := List.countP_eq_zero.mp hc e he
    simpa using this
  refine ⟨?_, ?_, ?_⟩
  · rw [runMain]
    simp only [mainBody, if_neg hp, hg, Bool.false_eq_true, if_false]
    simp [List.countP_cons, List.countP_append, hc, isCompleteEv]
  · rw [runMain]
    simp only [mainBody, if_neg hp, hg, Bool.false_eq_true, if_false]
    have hall : (runEvents (normTruthy (jsOrStr sid (normTruthy env)))
        false fo evs).2.2.all completeZeroOk = true := by
      rw [List.all_eq_true]
      intro e he
      have := hnone e he
      cases e with
      | frame f => cases f <;> simp_all [completeZeroOk, isCompleteEv]
      | act a => simp [completeZeroOk]
    simp [List.all_cons, List.all_append, hall, completeZeroOk, zeroMetrics]
  · rw [runMain]
    simp only [mainBody, if_neg hp, hg, Bool.false_eq_true, if_false]
    simp [List.countP_cons, List.countP_append, isCompletedCallback]

/-- Witness for C2 at a concrete run: process_start with no session id,
session_message with text "hi", a query sequence carrying only an init and
an unrecognised event, sync succeeding. -/
theorem C2_degenerate_completion_witness :
    (runMain (.ok (.processStart none)) (.ok (.sessionMessage (some "hi") none))
        none (.finished [.init "abc", .other]) true).countP isCompleteEv = 1
    ∧ (runMain (.ok (.processStart none)) (.ok (.sessionMessage (some "hi") none))
        none (.finished [.init "abc", .other]) true).all completeZeroOk = true
    ∧ 0 < (runMain (.ok (.processStart none)) (.ok (.sessionMessage (some "hi") none))
        none (.finished [.init "abc", .other]) true).countP isCompletedCallback :=
  C2_degenerate_completion none (some "hi") none none [.init "abc", .other] true
    (by decide) (by decide)

/-- Is this query event a terminal result event? -/
def isResultQ : QEvent → Bool
  | .result _ => true
  | _ => false

theorem cbOk_append_strong (l1 l2 : List Ev) : ∀ p, cbOk p l1 = true →
    (∀ q, cbOk q l2 = true) → cbOk p (l1 ++ l2) = true := by
  induction l1 with
  | nil => intro p _ h2; exact h2 p
  | cons e t ih =>
    intro p h1 h2
    rw [List.cons_append]
    unfold cbOk at h1 ⊢
    rw [Bool.and_eq_true] at h1 ⊢
    exact ⟨h1.1, ih (some e) h1.2 h2⟩

theorem runEvents_cbOk (fo : Bool) (evs : List QEvent) :
    ∀ sid got p, cbOk p (runEvents sid got fo evs).2.2 = true := by
  induction evs with
  | nil => intro sid got p; rfl
  | cons e rest ih =>
    intro sid got p
    cases e with
    | init s =>
      show cbOk p (.frame (.session_started s) :: _) = true
      unfold cbOk
      rw [Bool.and_eq_true]
      exact ⟨rfl, ih (some s) got (some (.frame (.session_started s)))⟩
    | result m =>
      show cbOk p (.frame (.session_complete sid m) :: .act (.flush fo)
        :: .act (.callback "completed" sid none) :: _) = true
      unfold cbOk
      rw [Bool.and_eq_true]
      refine ⟨rfl, ?_⟩
      unfold cbOk
      rw [Bool.and_eq_true]
      refine ⟨rfl, ?_⟩
      unfold cbOk
      rw [Bool.and_eq_true]
      exact ⟨rfl, ih sid true (some (.act (.callback "completed" sid none)))⟩
    | other => exact ih sid got p

theorem runEvents_got (fo : Bool) (evs : List QEvent) :
    ∀ sid got, (runEvents sid got fo evs).2.1 = (got || hasResultEv evs) := by
  induction evs with
  | nil => intro sid got; simp [runEvents, hasResultEv]
  | cons e rest ih =>
    intro sid got
    cases e with
    | init s => simp [runEvents, hasResultEv, ih]
    | result m =>
      simp [runEvents, hasResultEv, ih]
    | other => simp [runEvents, hasResultEv, ih]

theorem runEvents_cb_count (fo : Bool) (evs : List QEvent) :
    ∀ sid got, (runEvents sid got fo evs).2.2.countP isCallbackEv
      = evs.countP isResultQ := by
  induction evs with
  | nil => intro sid got; rfl
  | cons e rest ih =>
    intro sid got
    cases e with
    | init s =>
      simp [runEvents, List.countP_cons, isCallbackEv, isResultQ, ih]
    | result m =>
      simp [runEvents, List.countP_cons, isCallbackEv, isResultQ, ih]
    | other =>
      simp [runEvents, List.countP_cons, isResultQ, ih]

theorem mainBody_cbOk (line1 line2 : Line) (env : Option String)
    (exec : ExecOutcome) (fo : Bool) : ∀ p, cbOk p (mainBody line1 line2 env exec fo) = true := by
  intro p
  cases line1 with
  | eof => rfl
  | malformed => rfl
  | ok m1 =>
    cases m1 with
    | sessionMessage t c => rfl
    | otherType => rfl
    | processStart sid =>
      cases line2 with
      | eof => rfl
      | malformed => rfl
      | ok m2 =>
        cases m2 with
        | processStart s => rfl
        | otherType => rfl
        | sessionMessage t c =>
          show cbOk p (.frame (.process_ready _) :: _) = true
          unfold cbOk
          rw [Bool.and_eq_true]
          refine ⟨by rfl, ?_⟩
          by_cases hp : parseContent t c = ""
          · simp only [hp, if_pos rfl]
            rfl
          · simp only [if_neg hp]
            cases exec with
            | finished evs =>
              refine cbOk_append_strong _ _ _ (runEvents_cbOk fo evs _ false _) ?_
              intro q
              by_cases hg : (runEvents (normTruthy (jsOrStr sid (normTruthy env)))
                  false fo evs).2.1
              · rw [if_pos hg]; rfl
              · rw [if_neg hg]; rfl
            | threw evs err =>
              exact cbOk_append_strong _ _ _ (runEvents_cbOk fo evs _ false _)
                (fun q => rfl)

theorem runEvents_strip (evs : List QEvent) :
    ∀ sid got, (runEvents sid got true evs).1 = (runEvents sid got false evs).1
      ∧ (runEvents sid got true evs).2.1 = (runEvents sid got false evs).2.1
      ∧ stripFlush (runEvents sid got true evs).2.2
          = stripFlush (runEvents sid got false evs).2.2 := by
  induction evs with
  | nil => intro sid got; exact ⟨rfl, rfl, rfl⟩
  | cons e rest ih =>
    intro sid got
    cases e with
    | init s =>
      obtain ⟨ha, hb, hc⟩ := ih (some s) got
      exact ⟨ha, hb, by simp [runEvents, stripFlush] at hc ⊢; exact hc⟩
    | result m =>
      obtain ⟨ha, hb, hc⟩ := ih sid true
      refine ⟨ha, hb, ?_⟩
      simp only [runEvents, stripFlush, List.map_cons] at hc ⊢
      rw [hc]
    | other => exact ih sid got

theorem mainBody_strip (line1 line2 : Line) (env : Option String)
    (exec : ExecOutcome) :
    stripFlush (mainBody line1 line2 env exec true)
      = stripFlush (mainBody line1 line2 env exec false) := by
  cases line1 with
  | eof => rfl
  | malformed => rfl
  | ok m1 =>
    cases m1 with
    | sessionMessage t c => rfl
    | otherType => rfl
    | processStart sid =>
      cases line2 with
      | eof => rfl
      | malformed => rfl
      | ok m2 =>
        cases m2 with
        | processStart s => rfl
        | otherType => rfl
        | sessionMessage t c =>
          by_cases hp : parseContent t c = ""
          · simp only [mainBody, if_pos hp]
          · simp only [mainBody, if_neg hp]
            cases exec with
            | finished evs =>
              obtain ⟨ha, hb, hc⟩ := runEvents_strip evs
                (normTruthy (jsOrStr sid (normTruthy env))) false
              simp only [stripFlush, List.map_cons, List.map_append] at hc ⊢
              rw [hc, ha, hb]
              by_cases hg : (runEvents (normTruthy (jsOrStr sid (normTruthy env)))
                  false false evs).2.1 = true
              · simp only [if_pos hg]
              · simp only [if_neg hg]
                rfl
            | threw evs err =>
              obtain ⟨ha, hb, hc⟩ := runEvents_strip evs
                (normTruthy (jsOrStr sid (normTruthy env))) false
              simp only [stripFlush, List.map_cons, List.map_append] at hc ⊢
              rw [hc]

/-- C7: in every run, each completion callback is immediately preceded by
a volume flush (so the flush has completed or failed before the
notification is sent); the emitted effect sequence is independent of
whether the flush's sync succeeds (a flush failure does not prevent the
notification); and both terminal execution paths (event sequence
finished, with or without a result, and exception during execution)
do invoke the completion callback. -/
theorem C7_flush_before_notify (line1 line2 : Line) (sid t : Option String)
    (c : Option (List Seg)) (env : Option String) (evs : List QEvent)
    (err : String) (fo : Bool) (ex : ExecOutcome)
    (hp : parseContent t c ≠ "") :
    cbOk none (runMain line1 line2 env ex fo) = true
    ∧ stripFlush (runMain line1 line2 env ex true)
        = stripFlush (runMain line1 line2 env ex false)
    ∧ 0 < (runMain (.ok (.processStart sid)) (.ok (.sessionMessage t c))
        env (.finished evs) fo).countP isCallbackEv
    ∧ 0 < (runMain (.ok (.processStart sid)) (.ok (.sessionMessage t c))
        env (.threw evs err) fo).countP isCallbackEv := by
  refine ⟨?_, ?_, ?_, ?_⟩
  · rw [runMain]
    exact cbOk_append_strong _ _ none (mainBody_cbOk line1 line2 env ex fo none)
      (fun q => rfl)
  · rw [runMain, runMain]
    simp only [stripFlush, List.map_append]
    rw [show List.map _ (mainBody line1 line2 env ex true)
        = stripFlush (mainBody line1 line2 env ex true) from rfl,
      show List.map _ (mainBody line1 line2 env ex false)
        = stripFlush (mainBody line1 line2 env ex false) from rfl,
      mainBody_strip]
  · rw [runMain, List.countP_append]
    simp only [mainBody, if_neg hp]
    by_cases hg : (runEvents (normTruthy (jsOrStr sid (normTruthy env)))
        false fo evs).2.1
    · have hres : hasResultEv evs = true := by
        have := runEvents_got fo evs (normTruthy (jsOrStr sid (normTruthy env))) false
        rw [hg] at this
        simpa using this.symm
      have hcount := runEvents_cb_count fo evs
        (normTruthy (jsOrStr sid (normTruthy env))) false
      have hpos : 0 < evs.countP isResultQ := by
        rw [List.countP_pos_iff]
        obtain ⟨a, ha, hpa⟩ := List.any_eq_true.mp hres
        exact ⟨a, ha, by cases a <;> simp_all [isResultQ]⟩
      rw [if_pos hg]
      rw [List.countP_cons, List.countP_append]
      rw [hcount]
      omega
    · rw [if_neg hg]
      rw [List.countP_cons, List.countP_append]
      have : List.countP isCallbackEv [Ev.frame (Frame.session_complete
          (runEvents (normTruthy (jsOrStr sid (normTruthy env))) false fo evs).1
          zeroMetrics), Ev.act (Act.flush fo), Ev.act (Act.callback "completed"
          (runEvents (normTruthy (jsOrStr sid (normTruthy env))) false fo evs).1
          none)] = 1 := rfl
      rw [this]
      omega
  · rw [runMain, List.countP_append]
    simp only [mainBody, if_neg hp]
    rw [List.countP_cons, List.countP_append]
    have : List.countP isCallbackEv [Ev.frame (Frame.process_error err),
        Ev.act (Act.flush fo), Ev.act (Act.callback "error" none (some err))] = 1 := rfl
    rw [this]
    omega

/-- Witness for C7 at a concrete run: a valid start and message, one
init event followed by the end of the sequence, and the same inputs for
the exception path. -/
theorem C7_flush_before_notify_witness :
    cbOk none (runMain (.ok (.processStart none))
        (.ok (.sessionMessage (some "hi") none)) none
        (.finished [.init "abc"]) true) = true
    ∧ stripFlush (runMain (.ok (.processStart none))
        (.ok (.sessionMessage (some "hi") none)) none (.finished [.init "abc"]) true)
        = stripFlush (runMain (.ok (.processStart none))
        (.ok (.sessionMessage (some "hi") none)) none (.finished [.init "abc"]) false)
    ∧ 0 < (runMain (.ok (.processStart none)) (.ok (.sessionMessage (some "hi") none))
        none (.finished [.init "abc"]) true).countP isCallbackEv
    ∧ 0 < (runMain (.ok (.processStart none)) (.ok (.sessionMessage (some "hi") none))
        none (.threw [.init "abc"] "boom") true).countP isCallbackEv :=
  C7_flush_before_notify (.ok (.processStart none))
    (.ok (.sessionMessage (some "hi") none)) none (some "hi") none none
    [.init "abc"] "boom" true (.finished [.init "abc"]) (by decide)

/-! ## Text extraction (C9, C10) -/

/-- C9 counterexample: for a content list of two text segments "a" and
"b", both extraction functions return "a\n b" (newline-joined), not the
plain concatenation "ab" the claim states. -/
theorem C9_concatenation_counterexample :
    getUserMessageText (.arr [⟨"text", some "a"⟩, ⟨"text", some "b"⟩]) = "a\nb"
    ∧ getUserMessageText (.arr [⟨"text", some "a"⟩, ⟨"text", some "b"⟩]) ≠ "a" ++ "b"
    ∧ parseContent none (some [⟨"text", some "a"⟩, ⟨"text", some "b"⟩]) ≠ "a" ++ "b" := by
  decide

theorem map_text_getD (ts : List String) :
    List.map ((fun b => b.text.getD "") ∘ fun t => (⟨"text", some t⟩ : Seg)) ts = ts := by
  induction ts with
  | nil => rfl
  | cons t ts ih => simp only [List.map_cons]; rw [ih]; rfl

/-- C9 amended: for a content list of text segments with non-empty texts
[s1, ..., sn], both extraction functions return the segment texts joined
with a newline separator, String.intercalate "\n" [s1, ..., sn] (so
s1 ++ "\n" ++ s2 ++ ... rather than the plain concatenation s1 ++ s2 ++ ...;
the two agree only for at most one segment). -/
theorem C9_segments_joined_with_newline (ts : List String)
    (h : ∀ t ∈ ts, t ≠ "") :
    joinSegs (ts.map (fun t => ⟨"text", some t⟩)) = String.intercalate "\n" ts
    ∧ getUserMessageText (.arr (ts.map (fun t => ⟨"text", some t⟩)))
        = String.intercalate "\n" ts
    ∧ parseContent none (some (ts.map (fun t => ⟨"text", some t⟩)))
        = String.intercalate "\n" ts := by
  have hfil : (ts.map (fun t => (⟨"text", some t⟩ : Seg))).filter segKeep
      = ts.map (fun t => ⟨"text", some t⟩) := by
    rw [List.filter_eq_self]
    intro b hb
    obtain ⟨t, ht, rfl⟩ := List.mem_map.mp hb
    simp [segKeep, strTruthy, h t ht]
  have hjoin : joinSegs (ts.map (fun t => ⟨"text", some t⟩))
      = String.intercalate "\n" ts := by
    rw [joinSegs, hfil, List.map_map, map_text_getD]
  exact ⟨hjoin, hjoin, hjoin⟩

/-- Witness for C9's amended statement at the two-segment list
["a", "b"]. -/
theorem C9_segments_joined_with_newline_witness :
    joinSegs (["a", "b"].map (fun t => ⟨"text", some t⟩))
        = String.intercalate "\n" ["a", "b"]
    ∧ getUserMessageText (.arr (["a", "b"].map (fun t => ⟨"text", some t⟩)))
        = String.intercalate "\n" ["a", "b"]
    ∧ parseContent none (some (["a", "b"].map (fun t => ⟨"text", some t⟩)))
        = String.intercalate "\n" ["a", "b"] :=
  C9_segments_joined_with_newline ["a", "b"] (by decide)

/-- C10: extraction returns the text field and ignores the content list
whenever text is a non-empty string; when text is empty or absent it
falls back to the content list, on which segments whose type is not
"text" or whose text is missing or empty are skipped (inserting such a
segment anywhere changes nothing); and it returns the empty string when
content is also absent. -/
theorem C10_text_precedence :
    (∀ (t : String) (c : Option (List Seg)), t ≠ "" → parseContent (some t) c = t)
    ∧ (∀ c : List Seg, parseContent none (some c) = joinSegs c
        ∧ parseContent (some "") (some c) = joinSegs c)
    ∧ (∀ c1 c2 : List Seg, ∀ b : Seg, segKeep b = false →
        joinSegs (c1 ++ b :: c2) = joinSegs (c1 ++ c2))
    ∧ parseContent none none = "" ∧ parseContent (some "") none = "" := by
  refine ⟨?_, ?_, ?_, rfl, by simp [parseContent, strTruthy]⟩
  · intro t c ht
    simp [parseContent, strTruthy, ht]
  · intro c
    exact ⟨rfl, by simp [parseContent, strTruthy]⟩
  · intro c1 c2 b hb
    simp [joinSegs, List.filter_append, List.filter_cons, hb]

/-- Witness for C10 at concrete inputs: a non-empty text wins over a
content list, and a non-text segment inserted in the middle of a content
list changes nothing. -/
theorem C10_text_precedence_witness :
    parseContent (some "x") (some [⟨"text", some "ignored"⟩]) = "x"
    ∧ joinSegs ([⟨"text", some "a"⟩] ++ (⟨"image", none⟩ : Seg) :: [⟨"text", some "b"⟩])
        = joinSegs ([⟨"text", some "a"⟩] ++ [⟨"text", some "b"⟩]) :=
  ⟨C10_text_precedence.1 "x" (some [⟨"text", some "ignored"⟩]) (by decide),
   C10_text_precedence.2.2.1 [⟨"text", some "a"⟩] [⟨"text", some "b"⟩]
     ⟨"image", none⟩ (by decide)⟩

/-! ## The Home page polling loop (app/page.tsx inside the repository README)

The component state, the refs (postCompletionPollsRef, isPollingRef,
prevPollDataRef), the setInterval callback and React's effect semantics
are modelled explicitly: the polling useEffect has dependency array
(conversationId, status, pendingMessages.length, hasPendingMatch); the
two callbacks are stable (useCallback with stable dependencies) and
conversationId is fixed, so the effect re-runs exactly when status or
the pending count changes, at which point the old interval is cleared
and a new one is installed iff the gate condition wants more polling.
A timer tick dispatches a fetch unless the busy flag is set; a response
completes the oldest in-flight request, applies the interval body, and
clears the busy flag in the finally block. -/

/-- A confirmed message (SessionEntry) as the poll endpoint returns it:
its entry type and its message content. -/
structure SEntry where
  type : String
  content : JsContent
deriving DecidableEq, Repr

/-- A client-local optimistic pending message (id and submitted text). -/
structure PendingMsg where
  id : String
  content : String
deriving DecidableEq, Repr

/-- The payload of a successful poll response: conversation status, the
confirmed message sequence and an optional error message. -/
structure FetchData where
  status : String
  messages : List SEntry
  errorMessage : Option String
deriving DecidableEq, Repr

/-- hasPendingMatch: some server message has entry type "user" and
extracted text equal to the pending entry's text. -/
def hasPendingMatch (p : PendingMsg) (serverMsgs : List SEntry) : Bool :=
  serverMsgs.any (fun m => m.type == "user" && getUserMessageText m.content == p.content)

/-- The component state of Home: React state (status, messages, pending,
error text, refresh counter), the three refs, whether an interval is
currently installed, the effect's dependency snapshot from its last run,
and instrumentation counting in-flight and total dispatched fetches. -/
structure PState where
  status : String
  serverMessages : List SEntry
  pendingMessages : List PendingMsg
  errorMessage : Option String
  refreshTrigger : Nat
  postCompletionPolls : Nat
  isPolling : Bool
  prevStatus : String
  prevLen : Nat
  intervalActive : Bool
  depStatus : String
  depPendingLen : Nat
  inFlight : Nat
  fetchCount : Nat
deriving DecidableEq, Repr

/-- The polling useEffect body's gate: no interval when done and the
pending set is empty or the post-completion counter reached 10; no
interval when neither done nor running; otherwise install one. -/
def effectWantsInterval (status : String) (pendingLen postPolls : Nat) : Bool :=
  let isDone := status == "completed" || status == "error"
  if isDone && (pendingLen == 0 || decide (postPolls ≥ 10)) then false
  else if !isDone && status != "running" then false
  else true

/-- React's effect semantics after a render: if the dependency snapshot
(status, pending count; the other two dependencies never change) is
unchanged the effect does not re-run and the installed interval stays as
it is; otherwise the cleanup clears the old interval and the effect body
re-evaluates the gate. -/
def reactUpdate (s : PState) : PState :=
  if s.depStatus == s.status && s.depPendingLen == s.pendingMessages.length then s
  else
    { s with
      intervalActive := effectWantsInterval s.status s.pendingMessages.length
        s.postCompletionPolls
      depStatus := s.status
      depPendingLen := s.pendingMessages.length }

/-- The response.ok branch of the interval callback: replace the server
messages, filter pending messages only when the fetched sequence is
non-empty, bump the post-completion counter on terminal status, set the
status and error message, fire the refresh trigger iff (status, message
count) differs from the previous poll's snapshot, and update the
snapshot. -/
def applyFetch (s : PState) (d : FetchData) : PState :=
  { s with
    serverMessages := d.messages
    pendingMessages :=
      if d.messages.length > 0 then
        s.pendingMessages.filter (fun p => !hasPendingMatch p d.messages)
      else s.pendingMessages
    postCompletionPolls :=
      if d.status == "completed" || d.status == "error" then
        s.postCompletionPolls + 1
      else s.postCompletionPolls
    status := d.status
    errorMessage := normTruthy d.errorMessage
    refreshTrigger :=
      if d.status != s.prevStatus || d.messages.length != s.prevLen then
        s.refreshTrigger + 1
      else s.refreshTrigger
    prevStatus := d.status
    prevLen := d.messages.length }

/-- An external event of the poll loop: a timer tick, or the completion
of the oldest in-flight request (none models a network failure or a
non-ok response, whose body is skipped but whose finally block runs). -/
inductive PEvent
  | tick
  | response (d : Option FetchData)
deriving DecidableEq, Repr

/-- One step of the poll loop.  A tick does nothing when no interval is
installed or the busy flag is set; otherwise it sets the flag and
dispatches a fetch.  A response with no in-flight request is impossible
and ignored; otherwise the body runs (only for ok responses), the
finally block clears the busy flag, and React re-renders, re-running the
effect iff its dependencies changed. -/
def pstep (s : PState) : PEvent → PState
  | .tick =>
    if !s.intervalActive then s
    else if s.isPolling then s
    else { s with isPolling := true, inFlight := s.inFlight + 1,
                  fetchCount := s.fetchCount + 1 }
  | .response d =>
    if s.inFlight == 0 then s
    else
      let s1 := match d with
        | some data => applyFetch s data
        | none => s
      reactUpdate { s1 with isPolling := false, inFlight := s.inFlight - 1 }

/-- The state right after a message is submitted: status set to running,
the post-completion counter reset, the given pending messages queued,
the refs at their initial values, and the polling effect just run (it
installs an interval because status is running). -/
def initP (pending : List PendingMsg) : PState :=
  { status := "running", serverMessages := [], pendingMessages := pending,
    errorMessage := none, refreshTrigger := 0, postCompletionPolls := 0,
    isPolling := false, prevStatus := "", prevLen := 0,
    intervalActive := effectWantsInterval "running" pending.length 0,
    depStatus := "running", depPendingLen := pending.length,
    inFlight := 0, fetchCount := 0 }

/-- Run the poll loop over a list of events. -/
def prun (pending : List PendingMsg) (evs : List PEvent) : PState :=
  evs.foldl pstep (initP pending)

/-- The busy-flag invariant: the number of in-flight requests is 1 when
the busy flag is set and 0 otherwise. -/
def PInv (s : PState) : Prop :=
  s.inFlight = (if s.isPolling then 1 else 0)

theorem reactUpdate_isPolling (s : PState) :
    (reactUpdate s).isPolling = s.isPolling := by
  rw [reactUpdate]
  by_cases h : (s.depStatus == s.status && s.depPendingLen == s.pendingMessages.length) = true
  · rw [if_pos h]
  · rw [if_neg h]

theorem reactUpdate_inFlight (s : PState) :
    (reactUpdate s).inFlight = s.inFlight := by
  rw [reactUpdate]
  by_cases h : (s.depStatus == s.status && s.depPendingLen == s.pendingMessages.length) = true
  · rw [if_pos h]
  · rw [if_neg h]

theorem applyFetch_isPolling (s : PState) (d : FetchData) :
    (applyFetch s d).isPolling = s.isPolling := rfl

theorem applyFetch_inFlight (s : PState) (d : FetchData) :
    (applyFetch s d).inFlight = s.inFlight := rfl

theorem pstep_inv (s : PState) (e : PEvent) (h : PInv s) : PInv (pstep s e) := by
  cases e with
  | tick =>
    simp only [pstep]
    by_cases hi : (!s.intervalActive) = true
    · rw [if_pos hi]; exact h
    · rw [if_neg hi]
      by_cases hb : s.isPolling = true
      · rw [if_pos hb]; exact h
      · rw [if_neg hb]
        rw [PInv] at h ⊢
        simp only [Bool.not_eq_true] at hb
        simp [h, hb]
  | response d =>
    simp only [pstep]
    by_cases hz : (s.inFlight == 0) = true
    · rw [if_pos hz]; exact h
    · rw [if_neg hz]
      rw [PInv] at h ⊢
      cases d with
      | some data =>
        rw [reactUpdate_inFlight, reactUpdate_isPolling]
        simp only [applyFetch_isPolling]
        simp only [beq_iff_eq] at hz
        by_cases hb : s.isPolling = true
        · simp [h, hb]
        · simp only [Bool.not_eq_true] at hb
          rw [hb] at h
          simp [h] at hz
      | none =>
        rw [reactUpdate_inFlight, reactUpdate_isPolling]
        simp only
        simp only [beq_iff_eq] at hz
        by_cases hb : s.isPolling = true
        · simp [h, hb]
        · simp only [Bool.not_eq_true] at hb
          rw [hb] at h
          simp [h] at hz

theorem initP_inv (pending : List PendingMsg) : PInv (initP pending) := rfl

theorem prun_inv (pending : List PendingMsg) (evs : List PEvent) :
    PInv (prun pending evs) := by
  rw [prun]
  have hgen : ∀ s : PState, PInv s → PInv (evs.foldl pstep s) := by
    induction evs with
    | nil => intro s hs; exact hs
    | cons e rest ih =>
      intro s hs
      rw [List.foldl_cons]
      exact ih (pstep s e) (pstep_inv s e hs)
  exact hgen (initP pending) (initP_inv pending)

/-- C4: after any sequence of ticks and responses from submit time there
is at most one in-flight poll request; a tick that fires while the busy
flag is set changes nothing (dropped, not queued, no fetch dispatched);
and after any response completes — including failed fetches, where the
body is skipped — the busy flag is cleared. -/
theorem C4_single_inflight (pending : List PendingMsg) (evs : List PEvent) :
    (prun pending evs).inFlight ≤ 1
    ∧ (∀ s : PState, s.isPolling = true → pstep s .tick = s)
    ∧ (∀ (s : PState) (d : Option FetchData), s.inFlight ≠ 0 →
        (pstep s (.response d)).isPolling = false) := by
  refine ⟨?_, ?_, ?_⟩
  · have h := prun_inv pending evs
    rw [PInv] at h
    rw [h]
    by_cases hb : (prun pending evs).isPolling = true
    · simp [hb]
    · simp only [Bool.not_eq_true] at hb
      simp [hb]
  · intro s hb
    simp only [pstep]
    by_cases hi : (!s.intervalActive) = true
    · rw [if_pos hi]
    · rw [if_neg hi, if_pos hb]
  · intro s d hz
    simp only [pstep]
    have hz' : (s.inFlight == 0) ≠ true := by
      simpa using hz
    rw [if_neg hz']
    cases d with
    | some data => rw [reactUpdate_isPolling]
    | none => rw [reactUpdate_isPolling]

/-- A concrete poll-loop state with the busy flag set and one request in
flight, used to witness C4's tick-drop and busy-clear parts. -/
def c4BusyState : PState :=
  { status := "running", serverMessages := [], pendingMessages := [],
    errorMessage := none, refreshTrigger := 0, postCompletionPolls := 0,
    isPolling := true, prevStatus := "", prevLen := 0, intervalActive := true,
    depStatus := "running", depPendingLen := 0, inFlight := 1, fetchCount := 1 }

/-- Witness for C4 at a concrete run: one tick with a response that
fails, then a tick whose fetch succeeds, with a stray tick while busy. -/
theorem C4_single_inflight_witness :
    (prun [⟨"p1", "hi"⟩] [.tick, .tick, .response none, .tick,
        .response (some ⟨"running", [], none⟩)]).inFlight ≤ 1
    ∧ pstep c4BusyState PEvent.tick = c4BusyState
    ∧ (pstep c4BusyState (.response none)).isPolling = false := by
  refine ⟨(C4_single_inflight [⟨"p1", "hi"⟩] _).1, ?_, ?_⟩
  · exact (C4_single_inflight [] []).2.1 c4BusyState rfl
  · exact (C4_single_inflight [] []).2.2 c4BusyState none (by decide)

/-- C5: for every completed poll and every pending message in the set
before the poll, after the poll's reconciliation the pending message is
still in the set iff no confirmed message of the fetched sequence has
entry type "user" and extracted text equal to the pending entry's text;
in particular a pending entry is never removed by a poll with no such
match. -/
theorem C5_pending_retirement (s : PState) (d : FetchData) (p : PendingMsg)
    (hmem : p ∈ s.pendingMessages) :
    p ∈ (applyFetch s d).pendingMessages ↔ hasPendingMatch p d.messages = false := by
  cases hm : d.messages with
  | nil =>
    simp only [applyFetch, hm]
    simp [hasPendingMatch, hmem]
  | cons a l =>
    simp only [applyFetch, hm]
    simp [List.mem_filter, hmem]

/-- Witness for C5: a pending message whose text is confirmed by a
fetched user message is retired, and one with no match survives the same
poll. -/
theorem C5_pending_retirement_witness :
    (¬ (⟨"p1", "hello"⟩ : PendingMsg) ∈ (applyFetch (initP [⟨"p1", "hello"⟩])
        ⟨"completed", [⟨"user", .str "hello"⟩], none⟩).pendingMessages)
    ∧ (⟨"p2", "other"⟩ : PendingMsg) ∈ (applyFetch (initP [⟨"p2", "other"⟩])
        ⟨"completed", [⟨"user", .str "hello"⟩], none⟩).pendingMessages := by
  constructor
  · intro hmem
    have h := (C5_pending_retirement (initP [⟨"p1", "hello"⟩])
      ⟨"completed", [⟨"user", .str "hello"⟩], none⟩ ⟨"p1", "hello"⟩
      (by decide)).mp hmem
    simp [hasPendingMatch, getUserMessageText] at h
  · exact (C5_pending_retirement (initP [⟨"p2", "other"⟩])
      ⟨"completed", [⟨"user", .str "hello"⟩], none⟩ ⟨"p2", "other"⟩
      (by decide)).mpr (by decide)

/-- C6: on every completed poll the snapshot is updated to the fetched
(status, confirmed-count) pair after the comparison, unconditionally; the
refresh signal fires (the trigger increments) iff the fetched pair
differs from the previous poll's snapshot; and across any run of
consecutive polls whose fetched pair equals the standing snapshot the
trigger does not move at all. -/
theorem C6_refresh_gating (s : PState) (d : FetchData) (ds : List FetchData) :
    (applyFetch s d).prevStatus = d.status
    ∧ (applyFetch s d).prevLen = d.messages.length
    ∧ ((applyFetch s d).refreshTrigger =
        if d.status ≠ s.prevStatus ∨ d.messages.length ≠ s.prevLen then
          s.refreshTrigger + 1
        else s.refreshTrigger)
    ∧ ((∀ d' ∈ ds, d'.status = s.prevStatus ∧ d'.messages.length = s.prevLen) →
        (ds.foldl applyFetch s).refreshTrigger = s.refreshTrigger) := by
  refine ⟨rfl, rfl, ?_, ?_⟩
  · simp only [applyFetch]
    by_cases h1 : d.status = s.prevStatus
    · by_cases h2 : d.messages.length = s.prevLen
      · simp [h1, h2]
      · simp [h1, h2]
    · simp [h1]
  · intro hall
    induction ds generalizing s with
    | nil => rfl
    | cons d' rest ih =>
      have hd' := hall d' (List.mem_cons_self d' rest)
      rw [List.foldl_cons]
      have hkeep : (applyFetch s d').refreshTrigger = s.refreshTrigger := by
        simp only [applyFetch]
        simp [hd'.1, hd'.2]
      have hprev : (applyFetch s d').prevStatus = s.prevStatus
          ∧ (applyFetch s d').prevLen = s.prevLen := by
        exact ⟨by simp only [applyFetch]; exact hd'.1, by simp only [applyFetch]; exact hd'.2⟩
      have := ih (applyFetch s d') (by
        intro d'' hd''
        have h := hall d'' (List.mem_cons_of_mem d' hd'')
        rw [hprev.1, hprev.2]
        exact h)
      rw [this, hkeep]

/-- Witness for C6 at a concrete state: a poll matching the snapshot
leaves the trigger alone while updating the snapshot, and three further
identical polls leave the trigger unchanged. -/
theorem C6_refresh_gating_witness :
    (applyFetch (initP []) ⟨"", [], none⟩).prevStatus = ""
    ∧ (applyFetch (initP []) ⟨"", [], none⟩).prevLen = 0
    ∧ ((applyFetch (initP []) ⟨"", [], none⟩).refreshTrigger =
        if ("" : String) ≠ "" ∨ (0 : Nat) ≠ 0 then 1 else 0)
    ∧ (([⟨"", [], none⟩, ⟨"", [], none⟩, ⟨"", [], none⟩] :
        List FetchData).foldl applyFetch (initP [])).refreshTrigger = 0 := by
  have h := C6_refresh_gating (initP []) ⟨"", [], none⟩
    [⟨"", [], none⟩, ⟨"", [], none⟩, ⟨"", [], none⟩]
  refine ⟨h.1, h.2.1, ?_, ?_⟩
  · have h3 := h.2.2.1
    simpa using h3
  · exact h.2.2.2 (by decide)

/-- The poll response observed in the C3 scenario: status already
completed, no synced messages yet, no error. -/
def c3Data : FetchData := ⟨"completed", [], none⟩

/-- n consecutive poll cycles, each a timer tick followed by the
completion of its fetch with the c3Data response. -/
def c3Cycles : Nat → List PEvent
  | 0 => []
  | n + 1 => .tick :: .response (some c3Data) :: c3Cycles n

set_option maxRecDepth 8000 in
/-- C3 evaluated on the code: status becomes completed on the first poll
while one pending message stays unmatched (the fetched sequence stays
empty, so the pending filter never runs); after 15 full poll cycles the
loop has dispatched 15 fetches — 14 of them after the status became
completed, exceeding the cap of 10 — the post-completion counter has
reached 15 without ever stopping anything, the interval is still
installed, and the pending message is still there, so polling continues
unboundedly.  The cap is consulted only when the effect re-runs, which
requires the (status, pending count) dependencies to change; in this
scenario they change only once, on the running-to-completed transition,
when the counter is still 1. -/
theorem C3_cap_never_enforced :
    (prun [⟨"p1", "hello"⟩] (c3Cycles 15)).fetchCount = 15
    ∧ (prun [⟨"p1", "hello"⟩] (c3Cycles 15)).postCompletionPolls = 15
    ∧ (prun [⟨"p1", "hello"⟩] (c3Cycles 15)).status = "completed"
    ∧ (prun [⟨"p1", "hello"⟩] (c3Cycles 15)).intervalActive = true
    ∧ (prun [⟨"p1", "hello"⟩] (c3Cycles 15)).pendingMessages = [⟨"p1", "hello"⟩] := by
  refine ⟨?_, ?_, ?_, ?_, ?_⟩ <;> rfl
